import Mathlib

/-!
Verification development for `cpim.py` (CMSIS pack-index monitor).

The Python program is shallowly embedded: its pure computations become Lean
functions, its network traffic is abstracted as explicit transport behaviours
passed in as arguments, and raised exceptions become `Except` errors.  The
embedding follows the source line by line; where a Python standard-library
function is involved (`urllib.parse.urljoin`, `str.casefold`, `str.strip`),
the relevant fragment of CPython's implementation is modelled as well.
-/

/-! ## Model of the fragment of `urllib.parse` used by `PdscInfo.get_pdsc_url`

`get_pdsc_url` calls `urljoin(prefix_url, f"{vendor}.{name}.pdsc")`.  The
functions below model CPython's `urlsplit` / `urlparse` / `urlunsplit` /
`urlunparse` / `urljoin` on character lists, with `allow_fragments=True`
(the default used by `urljoin`).  The `ValueError` paths of `urlsplit`
(malformed bracketed IPv6 hosts) are not modelled; no input considered in the
theorems below reaches them. -/

/-- Characters allowed in a URL scheme (CPython `scheme_chars`). -/
def schemeChar (c : Char) : Bool :=
  c.isAlpha || c.isDigit || c == '+' || c == '-' || c == '.'

/-- Split a character list at the first occurrence of `sep`; `none` if absent. -/
def splitFirst (sep : Char) : List Char → Option (List Char × List Char)
  | [] => none
  | c :: rest =>
    if c = sep then some ([], rest)
    else (splitFirst sep rest).map (fun ab => (c :: ab.1, ab.2))

/-- Split a character list at the last occurrence of `sep`; `none` if absent. -/
def splitLast (sep : Char) (l : List Char) : Option (List Char × List Char) :=
  match splitFirst sep l.reverse with
  | some ab => some (ab.2.reverse, ab.1.reverse)
  | none => none

/-- `schemeSplit url = some (pre, post)` when `url = pre ++ ':' :: post`, the
shown colon being the first one and every character before it a scheme
character (CPython finds the first `':'` and then validates the prefix). -/
def schemeSplit : List Char → Option (List Char × List Char)
  | [] => none
  | c :: rest =>
    if c = ':' then some ([], rest)
    else if schemeChar c then
      (schemeSplit rest).map (fun ab => (c :: ab.1, ab.2))
    else none

/-- The six components of CPython's `ParseResult` (`urlparse` output);
`urlsplit` output is the same with `params` empty. -/
structure UrlParts where
  scheme : List Char
  netloc : List Char
  path : List Char
  params : List Char
  query : List Char
  fragment : List Char
deriving DecidableEq, Repr

/-- CPython `urllib.parse.uses_relative` (3.11). -/
def usesRelative : List (List Char) :=
  ["", "ftp", "http", "gopher", "nntp", "imap", "wais", "file", "https",
   "shttp", "mms", "prospero", "rtsp", "rtsps", "rtspu", "sftp", "svn",
   "svn+ssh", "ws", "wss"].map String.data

/-- CPython `urllib.parse.uses_netloc` (3.11). -/
def usesNetloc : List (List Char) :=
  ["", "ftp", "http", "gopher", "nntp", "telnet", "imap", "wais", "file",
   "mms", "https", "shttp", "snews", "prospero", "rtsp", "rtsps", "rtspu",
   "rsync", "svn", "svn+ssh", "sftp", "nfs", "git", "git+ssh", "ws",
   "wss"].map String.data

/-- Netloc extent: everything up to the first `/`, `?` or `#`
(CPython `_splitnetloc`). -/
def splitNetloc : List Char → List Char × List Char
  | [] => ([], [])
  | c :: rest =>
    if c = '/' || c = '?' || c = '#' then ([], c :: rest)
    else
      let ab := splitNetloc rest
      (c :: ab.1, ab.2)

/-- `_WHATWG_C0_CONTROL_OR_SPACE` membership: C0 control characters and space. -/
def c0ControlOrSpace (c : Char) : Bool := c.toNat ≤ 32

/-- `_UNSAFE_URL_BYTES_TO_REMOVE` membership: tab, CR, LF. -/
def unsafeUrlByte (c : Char) : Bool := c == '\t' || c == '\r' || c == '\n'

/-- The input cleaning `urlsplit` applies to its `url` argument: strip leading
C0-control/space characters, then remove every tab, CR and LF. -/
def cleanUrl (url : List Char) : List Char :=
  (url.dropWhile c0ControlOrSpace).filter (fun c => !unsafeUrlByte c)

/-- Model of `urllib.parse.urlsplit` with `allow_fragments=True`.  The
`defScheme` argument is assumed already clean (in `urljoin` it is either empty
or the output of a previous parse). -/
def urlsplitChars (defScheme url0 : List Char) : UrlParts :=
  let url := cleanUrl url0
  let sp :=
    match schemeSplit url with
    | some ab =>
      match ab.1 with
      | [] => (defScheme, url)
      | c :: _ => if c.isAlpha then (ab.1.map Char.toLower, ab.2) else (defScheme, url)
    | none => (defScheme, url)
  let nl :=
    if sp.2.take 2 = ['/', '/'] then splitNetloc (sp.2.drop 2)
    else ([], sp.2)
  let fr :=
    match splitFirst '#' nl.2 with
    | some ab => (ab.1, ab.2)
    | none => (nl.2, [])
  let qu :=
    match splitFirst '?' fr.1 with
    | some ab => (ab.1, ab.2)
    | none => (fr.1, [])
  ⟨sp.1, nl.1, qu.1, [], qu.2, fr.2⟩

/-- CPython `_splitparams`: split `;params` off the last path segment. -/
def splitparamsChars (path : List Char) : List Char × List Char :=
  if '/' ∈ path then
    match splitLast '/' path with
    | some ab =>
      match splitFirst ';' ab.2 with
      | some xy => (ab.1 ++ '/' :: xy.1, xy.2)
      | none => (path, [])
    | none => (path, [])
  else
    match splitFirst ';' path with
    | some xy => (xy.1, xy.2)
    | none => (path, [])

/-- CPython `urllib.parse.uses_params` (3.11). -/
def usesParams : List (List Char) :=
  ["", "ftp", "hdl", "prospero", "http", "imap", "https", "shttp", "rtsp",
   "rtsps", "rtspu", "sip", "sips", "mms", "sftp", "tel"].map String.data

/-- Model of `urllib.parse.urlparse`. -/
def urlparseChars (defScheme url : List Char) : UrlParts :=
  let s := urlsplitChars defScheme url
  if s.scheme ∈ usesParams ∧ ';' ∈ s.path then
    let pp := splitparamsChars s.path
    ⟨s.scheme, s.netloc, pp.1, pp.2, s.query, s.fragment⟩
  else s

/-- Model of `urllib.parse.urlunsplit` (3.11: the `//` marker is emitted when
there is a netloc, or when the scheme uses one and the path does not already
begin with `//`). -/
def urlunsplitChars (scheme netloc path query fragment : List Char) : List Char :=
  let u1 :=
    if netloc ≠ [] ∨ (scheme ≠ [] ∧ scheme ∈ usesNetloc ∧ path.take 2 ≠ ['/', '/']) then
      '/' :: '/' :: netloc ++
        (if path ≠ [] ∧ path.head? ≠ some '/' then '/' :: path else path)
    else path
  let u2 := if scheme ≠ [] then scheme ++ ':' :: u1 else u1
  let u3 := if query ≠ [] then u2 ++ '?' :: query else u2
  if fragment ≠ [] then u3 ++ '#' :: fragment else u3

/-- Model of `urllib.parse.urlunparse`. -/
def urlunparseChars (p : UrlParts) : List Char :=
  urlunsplitChars p.scheme p.netloc
    (if p.params ≠ [] then p.path ++ ';' :: p.params else p.path) p.query p.fragment

/-- Python `str.split('/')` on character lists. -/
def splitSlash : List Char → List (List Char)
  | [] => [[]]
  | c :: rest =>
    if c = '/' then [] :: splitSlash rest
    else
      match splitSlash rest with
      | s :: ss => (c :: s) :: ss
      | [] => [[c]]

/-- Python `'/'.join` on character lists. -/
def joinSlash : List (List Char) → List Char
  | [] => []
  | [s] => s
  | s :: rest => s ++ '/' :: joinSlash rest

/-- Drop empty segments, keeping one in the final position. -/
def dropEmptyButLast : List (List Char) → List (List Char)
  | [] => []
  | [a] => [a]
  | a :: rest =>
    if a = [] then dropEmptyButLast rest else a :: dropEmptyButLast rest

/-- CPython `segments[1:-1] = filter(None, segments[1:-1])`: remove empty
interior segments, keeping the first and last elements. -/
def filterInterior : List (List Char) → List (List Char)
  | [] => []
  | [a] => [a]
  | a :: rest => a :: dropEmptyButLast rest

/-- Dot-segment resolution from CPython `urljoin`: `..` pops the stack (a pop
of an empty stack is ignored), `.` is skipped, anything else is pushed. -/
def resolveDots (segs : List (List Char)) : List (List Char) :=
  segs.foldl
    (fun acc seg =>
      if seg = ['.', '.'] then acc.dropLast
      else if seg = ['.'] then acc
      else acc ++ [seg]) []

/-- Model of `urllib.parse.urljoin` (CPython 3.x). -/
def urljoinChars (base url : List Char) : List Char :=
  if base = [] then url
  else if url = [] then base
  else
    let b := urlparseChars [] base
    let r := urlparseChars b.scheme url
    if r.scheme ≠ b.scheme ∨ r.scheme ∉ usesRelative then url
    else if r.scheme ∈ usesNetloc ∧ r.netloc ≠ [] then
      urlunparseChars r
    else
      let netloc := if r.scheme ∈ usesNetloc then b.netloc else r.netloc
      if r.path = [] ∧ r.params = [] then
        urlunparseChars ⟨r.scheme, netloc, b.path, b.params,
          (if r.query = [] then b.query else r.query), r.fragment⟩
      else
        let baseParts0 := splitSlash b.path
        let baseParts :=
          if baseParts0.getLastD [] ≠ [] then baseParts0.dropLast else baseParts0
        let segments :=
          if r.path.head? = some '/' then splitSlash r.path
          else filterInterior (baseParts ++ splitSlash r.path)
        let resolved0 := resolveDots segments
        let resolved :=
          if segments.getLastD [] = ['.'] ∨ segments.getLastD [] = ['.', '.']
          then resolved0 ++ [[]] else resolved0
        let joined := joinSlash resolved
        urlunparseChars ⟨r.scheme, netloc,
          (if joined = [] then ['/'] else joined), r.params, r.query, r.fragment⟩

/-- `urllib.parse.urljoin` on `String`. -/
def urljoin (base url : String) : String :=
  ⟨urljoinChars base.data url.data⟩

/-! ## Models of `str.casefold`, `str.strip` and `str.endswith` -/

/-- Model of Python `str.casefold`.  For the ASCII strings handled here it
coincides with per-character lower-casing. -/
def casefold (s : String) : String := ⟨s.data.map Char.toLower⟩

/-- Python `str.isspace` on the ASCII whitespace characters. -/
def pyIsSpace (c : Char) : Bool :=
  c == ' ' || c == '\t' || c == '\n' || c == '\r' || c == '\x0b' || c == '\x0c'

/-- Model of Python `str.strip()` (ASCII whitespace). -/
def pyStrip (s : String) : String :=
  ⟨((s.data.dropWhile pyIsSpace).reverse.dropWhile pyIsSpace).reverse⟩

/-- Python `s.endswith("/")`: `s` is nonempty and its last character is `/`. -/
def endswithSlash (s : String) : Bool := s.data.getLast? == some '/'

/-! ## Data model of `cpim.py` -/

/-- The `PdscInfo` dataclass: one `<pdsc>` entry of the index. -/
structure PdscInfo where
  url : String
  vendor : String
  name : String
  version : String
deriving DecidableEq, Repr

/-- `PdscInfo.get_pdsc_url`: normalize `url` to end with `/`, then `urljoin`
it with `f"{vendor}.{name}.pdsc"`. -/
def PdscInfo.get_pdsc_url (p : PdscInfo) : String :=
  let prefixUrl := if endswithSlash p.url then p.url else p.url ++ "/"
  urljoin prefixUrl (p.vendor ++ "." ++ p.name ++ ".pdsc")

/-- The `FailureCause` enum. -/
inductive FailureCause where
  | CONNECT_FAILED
  | REQUEST_FAILED
  | REQUEST_TIMEOUT
  | INVALID_DATA
deriving DecidableEq, Repr

/-- The part of `requests.Response` the program's control flow inspects: the
status code.  (Headers are only echoed into logs.) -/
structure Response where
  status_code : Int
deriving DecidableEq, Repr

/-- The `RequestFailureInfo` dataclass.  Field defaults in the source:
`status=-1`, `cause=REQUEST_FAILED`, `response=None`, `pdsc=None`. -/
structure RequestFailureInfo where
  url : String
  status : Int
  cause : FailureCause
  response : Option Response
  pdsc : Option PdscInfo
deriving DecidableEq, Repr

/-- The exceptions that can cross the boundaries modelled here:
`RequestError` (raised by `retrieve_index`), `KeyError` (raised by a missing
XML attribute), and the two `requests` exceptions a probe future can
re-raise from `future.result()`. -/
inductive PyException where
  | requestError (info : RequestFailureInfo)
  | keyError (key : String)
  | connectionError
  | timeoutError
deriving DecidableEq, Repr

/-! ## Transport and index-content environment

The network is the program's environment; a run of the monitor is a function
of what each HTTP GET does.  A mocked transport assigns to every
`(url, timeout)` pair the behaviour of `requests.get(url, timeout=...)`:
return a response with some status, or raise one of the two exceptions the
program distinguishes.  The `timeout` component is `none` when the keyword is
not passed at the call site. -/

/-- Behaviour of one `requests.get` call. -/
inductive GetBehavior where
  | response (status : Int)
  | connectionError
  | timeoutError
deriving DecidableEq, Repr

/-- A mocked transport for the per-descriptor probe GETs. -/
def Transport : Type := String → Option Nat → GetBehavior

/-- `requests.get` against a mocked transport: a `Response`, or a raised
exception as an `Except.error`. -/
def requests_get (tr : Transport) (url : String) (timeout : Option Nat) :
    Except PyException Response :=
  match tr url timeout with
  | .response s => .ok ⟨s⟩
  | .connectionError => .error .connectionError
  | .timeoutError => .error .timeoutError

/-- Parse outcome of the `<timestamp>` element text: element absent
(`findtext` returns `None`), present but rejected by
`dateutil.parser.isoparse`, or a valid timestamp. -/
inductive TsParse where
  | missing
  | invalid
  | valid (ts : String)
deriving DecidableEq, Repr

/-- One `<pdsc>` element, each attribute optional: `e.attrib[...]` on a
missing attribute raises `KeyError`. -/
structure PdscElem where
  url : Option String
  vendor : Option String
  name : Option String
  version : Option String
deriving DecidableEq, Repr

/-- Parse outcome of the index body: `ElementTree.XML` raises `ParseError`,
or yields a document with a timestamp outcome and the `pindex/pdsc`
elements in document order. -/
inductive BodyParse where
  | parseError
  | parsed (ts : TsParse) (elems : List PdscElem)
deriving DecidableEq, Repr

/-- Behaviour of the single index fetch
`requests.get(PIDX, timeout=REQUEST_TIMEOUT_SECONDS)`. -/
inductive IndexFetch where
  | connectionError
  | timeoutError
  | response (status : Int) (body : BodyParse)
deriving DecidableEq, Repr

/-! ## `PackIndexMonitor` -/

/-- `PackIndexMonitor.PIDX`. -/
def PIDX : String := "http://www.keil.com/pack/index.pidx"

/-- `PackIndexMonitor.REQUEST_TIMEOUT_SECONDS`. -/
def REQUEST_TIMEOUT_SECONDS : Nat := 30

/-- `ThreadPoolExecutor(max_workers=32)` in `check_pdscs`. -/
def check_pdscs_max_workers : Nat := 32

/-- The state `PackIndexMonitor.__init__` stores: the vendor list and the
quiet flag (`_all_vendors` is derived below, as in the source). -/
structure PackIndexMonitor where
  vendors : List String
  quiet : Bool
deriving DecidableEq, Repr

/-- `self._all_vendors = '*' in vendors`. -/
def PackIndexMonitor.all_vendors (m : PackIndexMonitor) : Bool :=
  decide ("*" ∈ m.vendors)

/-- `e.attrib[key]`: the attribute value, or a raised `KeyError`. -/
def getAttrib (key : String) (v : Option String) : Except PyException String :=
  match v with
  | some s => .ok s
  | none => .error (.keyError key)

/-- Construction of one `PdscInfo` inside the list comprehension of
`retrieve_index`; the dict accesses happen in source order
(`url`, `vendor`, `name`, `version`), and the first missing one raises. -/
def pdscOfElem (e : PdscElem) : Except PyException PdscInfo :=
  match getAttrib "url" e.url with
  | .error err => .error err
  | .ok u =>
    match getAttrib "vendor" e.vendor with
    | .error err => .error err
    | .ok v =>
      match getAttrib "name" e.name with
      | .error err => .error err
      | .ok n =>
        match getAttrib "version" e.version with
        | .error err => .error err
        | .ok ver => .ok ⟨u, v, n, ver⟩

/-- The list comprehension of `retrieve_index`, evaluated in document order;
the first raised exception propagates. -/
def pdscsOfElems : List PdscElem → Except PyException (List PdscInfo)
  | [] => .ok []
  | e :: rest =>
    match pdscOfElem e with
    | .error err => .error err
    | .ok p =>
      match pdscsOfElems rest with
      | .error err => .error err
      | .ok ps => .ok (p :: ps)

/-- `PackIndexMonitor.retrieve_index` as a function of the index-fetch
behaviour.  Returns the timestamp and descriptor list, or the raised
exception: a `RequestError` carrying a `RequestFailureInfo` for the
connection / timeout / non-200 / unparsable-body / bad-timestamp cases, or a
`KeyError` escaping from a `<pdsc>` element that lacks an attribute. -/
def retrieve_index (fetch : IndexFetch) : Except PyException (String × List PdscInfo) :=
  match fetch with
  | .connectionError =>
    .error (.requestError ⟨PIDX, -1, .CONNECT_FAILED, none, none⟩)
  | .timeoutError =>
    .error (.requestError ⟨PIDX, -1, .REQUEST_TIMEOUT, none, none⟩)
  | .response status body =>
    if status ≠ 200 then
      .error (.requestError ⟨PIDX, status, .REQUEST_FAILED, some ⟨status⟩, none⟩)
    else
      match body with
      | .parseError => .error (.requestError ⟨PIDX, -1, .INVALID_DATA, none, none⟩)
      | .parsed .missing _ => .error (.requestError ⟨PIDX, -1, .INVALID_DATA, none, none⟩)
      | .parsed .invalid _ => .error (.requestError ⟨PIDX, -1, .INVALID_DATA, none, none⟩)
      | .parsed (.valid t) elems =>
        match pdscsOfElems elems with
        | .error err => .error err
        | .ok pdscs => .ok (t, pdscs)

/-- `PackIndexMonitor.retrieve_pdsc`: one GET with
`timeout=REQUEST_TIMEOUT_SECONDS`, the two `requests` exceptions converted to
`RequestFailureInfo` values.  The Python return type is the union
`Union[requests.Response, RequestFailureInfo]`, embedded as a `Sum`. -/
def retrieve_pdsc (tr : Transport) (pdsc : PdscInfo) : Sum Response RequestFailureInfo :=
  match tr pdsc.get_pdsc_url (some REQUEST_TIMEOUT_SECONDS) with
  | .response s => .inl ⟨s⟩
  | .connectionError => .inr ⟨pdsc.get_pdsc_url, -1, .CONNECT_FAILED, none, none⟩
  | .timeoutError => .inr ⟨pdsc.get_pdsc_url, -1, .REQUEST_TIMEOUT, none, none⟩

/-! ## The concurrent probe run in `check_pdscs`

`check_pdscs` builds `futures_map = {executor.submit(requests.get,
pdsc.get_pdsc_url()): pdsc for pdsc in filtered_pdscs}` — note that the
submitted callable is the bare `requests.get` with the URL as its only
argument (no `timeout`), not `self.retrieve_pdsc`.  The consuming loop then
iterates either `tqdm(as_completed(futures_map), ...)` when stdout is a tty
(futures in completion order) or `futures_map` itself otherwise (dictionary
iteration: futures in insertion order, which is submission order), and calls
`future.result()`, which re-raises any exception the task raised.

In the embedding a probe run is a function of the transport, the processing
order of the futures, and the task each future ran.  The completion order the
scheduler happens to produce is a permutation of the submitted descriptors
and is passed in as a parameter. -/

/-- Result stored in one future of `futures_map`:
`executor.submit(requests.get, pdsc.get_pdsc_url())`.  The loop that consumes
it tests `isinstance(response, RequestFailureInfo)`, so the value space is the
union of the two types; a bare `requests.get` can only ever produce the
`Response` side (`Sum.inl`) or a raised exception. -/
def submittedFutureResult (tr : Transport) (pdsc : PdscInfo) :
    Except PyException (Sum Response RequestFailureInfo) :=
  match requests_get tr pdsc.get_pdsc_url none with
  | .ok r => .ok (.inl r)
  | .error e => .error e

/-- One future result in the variant that submits `self.retrieve_pdsc`
instead of bare `requests.get` — the task the
`isinstance(response, RequestFailureInfo)` branch of the loop is written
for.  `retrieve_pdsc` catches the transport exceptions itself, so this task
never raises. -/
def retrievePdscFutureResult (tr : Transport) (pdsc : PdscInfo) :
    Except PyException (Sum Response RequestFailureInfo) :=
  .ok (retrieve_pdsc tr pdsc)

/-- One iteration of the consuming loop (lines 166-184 of `cpim.py`): the
failure it appends for a completed future, `none` when the outcome is a
success (status 200, only printed). -/
def processOutcome (pdsc : PdscInfo) (res : Sum Response RequestFailureInfo) :
    Option RequestFailureInfo :=
  match res with
  | .inr fi => some fi
  | .inl r =>
    if r.status_code ≠ 200 then
      some ⟨pdsc.get_pdsc_url, r.status_code, .REQUEST_FAILED, some r, some pdsc⟩
    else none

/-- The consuming loop over the futures in the given processing order.  A
raised exception from `future.result()` is not caught anywhere in
`check_pdscs`, so it aborts the loop and propagates. -/
def processFutures (task : PdscInfo → Except PyException (Sum Response RequestFailureInfo)) :
    List PdscInfo → Except PyException (List RequestFailureInfo)
  | [] => .ok []
  | p :: rest =>
    match task p with
    | .error e => .error e
    | .ok res =>
      match processFutures task rest with
      | .error e => .error e
      | .ok tail =>
        match processOutcome p res with
        | some fi => .ok (fi :: tail)
        | none => .ok tail

/-- The vendor filtering step of `check_pdscs` (lines 140-147): all
descriptors when `_all_vendors`, otherwise those whose casefolded vendor is
in `self._vendors`. -/
def filtered_pdscs (m : PackIndexMonitor) (pdscs : List PdscInfo) : List PdscInfo :=
  if m.all_vendors then pdscs
  else pdscs.filter (fun p => decide (casefold p.vendor ∈ m.vendors))

/-- The argument list of each GET submitted to the pool by `check_pdscs`:
`executor.submit(requests.get, pdsc.get_pdsc_url())` passes the resolved URL
and no timeout keyword. -/
def probe_submit_args (filtered : List PdscInfo) : List (String × Option Nat) :=
  filtered.map (fun p => (p.get_pdsc_url, (none : Option Nat)))

/-- `PackIndexMonitor.check_pdscs` as a function of the environment: the
index-fetch behaviour, the probe transport, whether stdout is a tty, and the
completion order the pool's scheduler produced for the filtered descriptors.
Only `RequestError` from `retrieve_index` is caught (returned as a
one-element failure list); every other exception propagates. -/
def check_pdscs (m : PackIndexMonitor) (fetch : IndexFetch) (tr : Transport)
    (isatty : Bool) (completionOrder : List PdscInfo) :
    Except PyException (List RequestFailureInfo) :=
  match retrieve_index fetch with
  | .error (.requestError info) => .ok [info]
  | .error e => .error e
  | .ok tsPdscs =>
    let filtered := filtered_pdscs m tsPdscs.2
    let order := if isatty then completionOrder else filtered
    processFutures (submittedFutureResult tr) order

/-- The probe run of `check_pdscs` with the submitted task replaced by
`self.retrieve_pdsc` — the variant the rest of the code (the dead
`isinstance` branch, the unused `retrieve_pdsc` method, the
`REQUEST_TIMEOUT_SECONDS` constant) is written for. -/
def check_pdscs_fixed (m : PackIndexMonitor) (fetch : IndexFetch) (tr : Transport)
    (isatty : Bool) (completionOrder : List PdscInfo) :
    Except PyException (List RequestFailureInfo) :=
  match retrieve_index fetch with
  | .error (.requestError info) => .ok [info]
  | .error e => .error e
  | .ok tsPdscs =>
    let filtered := filtered_pdscs m tsPdscs.2
    let order := if isatty then completionOrder else filtered
    processFutures (retrievePdscFutureResult tr) order

/-! ## Bounded worker pool

`ThreadPoolExecutor(max_workers=32)` starts a queued task only when one of
its at most 32 workers is idle.  The abstraction below is a small-step model
of that scheduler: a state records which submitted tasks are still queued,
which are in flight, and which have finished; a step either starts a queued
task (only when fewer than `maxWorkers` are in flight) or finishes an
in-flight task. -/

/-- State of the bounded worker pool over the submitted descriptors. -/
structure PoolState where
  pending : List PdscInfo
  running : List PdscInfo
  done : List PdscInfo
deriving DecidableEq, Repr

/-- One scheduler step of `ThreadPoolExecutor(max_workers=maxWorkers)`. -/
inductive PoolStep (maxWorkers : Nat) : PoolState → PoolState → Prop
  | start (p : PdscInfo) (pending running done : List PdscInfo)
      (hfree : running.length < maxWorkers) :
      PoolStep maxWorkers ⟨p :: pending, running, done⟩ ⟨pending, p :: running, done⟩
  | finish (p : PdscInfo) (pending running done : List PdscInfo)
      (hp : p ∈ running) :
      PoolStep maxWorkers ⟨pending, running, done⟩ ⟨pending, running.erase p, p :: done⟩

/-- Initial pool state: every filtered descriptor queued, none in flight. -/
def initPool (filtered : List PdscInfo) : PoolState := ⟨filtered, [], []⟩

/-- Reachability under pool steps. -/
def poolReachable (maxWorkers : Nat) : PoolState → PoolState → Prop :=
  Relation.ReflTransGen (PoolStep maxWorkers)

/-! ## The run loop of `PackIndexMonitorTool.run` -/

/-- What the `while True` loop in `PackIndexMonitorTool.run` does right after
one `check_pdscs` call: an uncaught exception crashes the loop (only
`KeyboardInterrupt` is handled, outside the loop); otherwise the failures are
printed/logged and interval 0 breaks out while a non-zero interval sleeps. -/
inductive LoopNext where
  | exit
  | sleep (seconds : Nat)
  | crash (e : PyException)
deriving DecidableEq, Repr

/-- The control-flow decision at the end of one cycle. -/
def run_loop_next (interval : Nat)
    (checkResult : Except PyException (List RequestFailureInfo)) : LoopNext :=
  match checkResult with
  | .error e => .crash e
  | .ok _ => if interval = 0 then .exit else .sleep interval

/-- The vendor preparation in `PackIndexMonitorTool.run` (lines 218-221):
`vendor.strip().casefold()` over the configured list (or the default). -/
def prepare_vendors (configured : List String) : List String :=
  configured.map (fun v => casefold (pyStrip v))

/-! ## Plain URLs: the inputs on which `urljoin` degenerates to concatenation

`get_pdsc_url` resolves with `urljoin`, not with string concatenation, so the
two agree only on descriptors whose fields contain no URL syntax.  The
predicates below characterise such descriptors. -/

/-- Characters acceptable in the host part of a plain http URL: printable
ASCII that is not a netloc delimiter (`/?#`) and not a bracket (the
IPv6-validation path of `urlsplit` lies outside the model). -/
def hostChar (c : Char) : Bool :=
  33 ≤ c.toNat && c.toNat ≤ 126 && c != '/' && c != '?' && c != '#' &&
    c != '[' && c != ']'

/-- Characters acceptable inside one path segment of a plain URL: at least
`!` (so no control characters or space, which the parser strips or removes)
and not a path, query, fragment or params delimiter. -/
def pathChar (c : Char) : Bool :=
  33 ≤ c.toNat && c != '/' && c != '?' && c != '#' && c != ';'

/-- Characters of a vendor or pack name that keep the relative reference
`{vendor}.{name}.pdsc` inert under `urljoin`: printable and none of the
delimiters `:/?#;`. -/
def relChar (c : Char) : Bool :=
  33 ≤ c.toNat && c != ':' && c != '/' && c != '?' && c != '#' && c != ';'

/-- The absolute path `/s1/.../sn` over the given segments. -/
def absPath (ss : List (List Char)) : List Char := '/' :: joinSlash ss

/-- A plain http URL `http://host/seg1/.../segn` with an optional trailing
slash, assembled from its parts. -/
def mkUrlStr (host : List Char) (segs : List (List Char)) (endSlash : Bool) : String :=
  ⟨"http://".data ++ host ++ (if segs = [] then [] else absPath segs) ++
    (if endSlash then ['/'] else [])⟩

/-! ## Helpers for stating results -/

/-- The number of recorded failures, when the run returned at all. -/
def checkOutcomeCount : Except PyException (List RequestFailureInfo) → Option Nat
  | .ok l => some l.length
  | .error _ => none

/-- The cause recorded in the first failure of a returned report. -/
def firstFailureCause : Except PyException (List RequestFailureInfo) → Option FailureCause
  | .ok (f :: _) => some f.cause
  | .ok [] => none
  | .error _ => none

/-- The failure cause the spec's taxonomy assigns to each failing index
fetch: connection failure, timeout, non-200 status, and invalid data for an
unparsable body or a missing/unparsable timestamp. -/
def expectedIndexFailureCause : IndexFetch → FailureCause
  | .connectionError => .CONNECT_FAILED
  | .timeoutError => .REQUEST_TIMEOUT
  | .response status _ => if status ≠ 200 then .REQUEST_FAILED else .INVALID_DATA

/-- The index-fetch behaviours on which `retrieve_index` fails. -/
def indexFetchFails : IndexFetch → Bool
  | .connectionError => true
  | .timeoutError => true
  | .response _ .parseError => true
  | .response _ (.parsed .missing _) => true
  | .response _ (.parsed .invalid _) => true
  | .response status (.parsed (.valid _) _) => status ≠ 200

/-- The first attribute name whose `e.attrib[...]` lookup raises in the list
comprehension of `retrieve_index` (elements in document order, attributes in
the source order `url`, `vendor`, `name`, `version`). -/
def firstKeyError : List PdscElem → Option String
  | [] => none
  | e :: rest =>
    match e.url, e.vendor, e.name, e.version with
    | none, _, _, _ => some "url"
    | some _, none, _, _ => some "vendor"
    | some _, some _, none, _ => some "name"
    | some _, some _, some _, none => some "version"
    | some _, some _, some _, some _ => firstKeyError rest

/-- The failure the consuming loop of `check_pdscs` records for a descriptor
whose probe GET returned a response (no exception): the `REQUEST_FAILED`
record for a non-200 status, nothing for a 200. -/
def responseFailure (tr : Transport) (p : PdscInfo) : Option RequestFailureInfo :=
  match tr p.get_pdsc_url none with
  | .response s => processOutcome p (.inl ⟨s⟩)
  | _ => none

/-! ## Concrete fixtures used in counterexamples and witnesses -/

/-- A "Keil" descriptor whose probe will be mocked to return 404. -/
def dA : PdscInfo := ⟨"http://x.test/p1", "Keil", "A", "1.0"⟩

/-- A "Keil" descriptor whose probe will be mocked to raise a connection error. -/
def dB : PdscInfo := ⟨"http://x.test/p2", "Keil", "B", "1.0"⟩

/-- A "Keil" descriptor whose probe will be mocked to return 200. -/
def dC : PdscInfo := ⟨"http://x.test/p3", "Keil", "C", "1.0"⟩

/-- A descriptor of another vendor, for filter fixtures. -/
def dArm : PdscInfo := ⟨"http://x.test/q1", "ARM", "D", "1.0"⟩

/-- The `<pdsc>` element carrying all four attributes of a descriptor. -/
def elemOf (p : PdscInfo) : PdscElem := ⟨some p.url, some p.vendor, some p.name, some p.version⟩

/-- An index fetch that succeeds with the given descriptors. -/
def fetchOk (ps : List PdscInfo) : IndexFetch :=
  .response 200 (.parsed (.valid "2021-01-01T12:00:00") (ps.map elemOf))

/-- The monitor as `PackIndexMonitorTool.run` constructs it for `-v Keil`. -/
def mKeil : PackIndexMonitor := ⟨prepare_vendors ["Keil"], false⟩

/-- Mocked transport for the C1 scenario: 404 for `dA`, a connection error
for `dB`, 200 for everything else (in particular `dC`). -/
def trScenario : Transport := fun url _t =>
  if url = dA.get_pdsc_url then .response 404
  else if url = dB.get_pdsc_url then .connectionError
  else .response 200

/-- Mocked transport raising `requests.exceptions.Timeout` for `dA` only. -/
def trTimeoutA : Transport := fun url _t =>
  if url = dA.get_pdsc_url then .timeoutError else .response 200

/-- Mocked transport returning 404 for every URL. -/
def tr404 : Transport := fun _ _ => .response 404

/-- Mocked transport returning 200 for every URL. -/
def tr200 : Transport := fun _ _ => .response 200

/-- The failure record the loop builds for a 404 on descriptor `p`. -/
def fail404 (p : PdscInfo) : RequestFailureInfo :=
  ⟨p.get_pdsc_url, 404, .REQUEST_FAILED, some ⟨404⟩, some p⟩

/-! ## Shared lemmas -/

/-- Building the descriptor list in `retrieve_index` stops at the first
element with a missing attribute, raising that attribute's `KeyError`. -/
theorem pdscsOfElems_keyError (elems : List PdscElem) (k : String)
    (hk : firstKeyError elems = some k) :
    pdscsOfElems elems = .error (.keyError k) := by
  induction elems with
  | nil => simp [firstKeyError] at hk
  | cons e rest ih =>
    rcases e with ⟨u, v, n, ver⟩
    cases u with
    | none =>
      simp [firstKeyError] at hk
      subst hk
      rfl
    | some us =>
      cases v with
      | none =>
        simp [firstKeyError] at hk
        subst hk
        rfl
      | some vs =>
        cases n with
        | none =>
          simp [firstKeyError] at hk
          subst hk
          rfl
        | some ns =>
          cases ver with
          | none =>
            simp [firstKeyError] at hk
            subst hk
            rfl
          | some vers =>
            simp only [firstKeyError] at hk
            simp [pdscsOfElems, pdscOfElem, getAttrib, ih hk]

/-- A probe loop over futures none of which raised returns the report of the
per-descriptor failures in processing order. -/
theorem processFutures_no_raise (tr : Transport) (order : List PdscInfo)
    (hresp : ∀ url, ∃ s, tr url none = .response s) :
    processFutures (submittedFutureResult tr) order =
      .ok (order.filterMap (responseFailure tr)) := by
  induction order with
  | nil => rfl
  | cons p rest ih =>
    obtain ⟨s, hs⟩ := hresp p.get_pdsc_url
    have htask : submittedFutureResult tr p = .ok (.inl ⟨s⟩) := by
      simp [submittedFutureResult, requests_get, hs]
    have hrf : responseFailure tr p = processOutcome p (.inl ⟨s⟩) := by
      simp [responseFailure, hs]
    simp only [processFutures, htask, ih, List.filterMap_cons, hrf]
    cases h : processOutcome p (.inl ⟨s⟩) <;> simp [h]

/-! ## Claim theorems -/

/-- C1 (code bug): in the spec scenario — three "Keil" descriptors whose
mocked transport returns 404, raises a connection error, and returns 200
respectively — `check_pdscs` does not return a two-entry failure report: the
connection error re-raised by `future.result()` is uncaught and aborts the
run.  The variant that submits `self.retrieve_pdsc` (the task the dead
`isinstance` branch expects) produces exactly the two failures the spec
describes, `REQUEST_FAILED`/404 and `CONNECT_FAILED`. -/
theorem connection_error_aborts_probe_run :
    check_pdscs mKeil (fetchOk [dA, dB, dC]) trScenario false [] =
      .error .connectionError ∧
    check_pdscs_fixed mKeil (fetchOk [dA, dB, dC]) trScenario false [] =
      .ok [fail404 dA, ⟨dB.get_pdsc_url, -1, .CONNECT_FAILED, none, none⟩] :=
  ⟨rfl, rfl⟩

/-- C2 (code bug): with two descriptors, the first of which times out, the
probe run raises instead of returning, so the second descriptor yields no
outcome at all — not one outcome per descriptor.  The `retrieve_pdsc`
variant completes, recording one timeout failure and processing the second
descriptor (a success, hence absent from the failure report). -/
theorem timeout_aborts_run_dropping_outcomes :
    check_pdscs mKeil (fetchOk [dA, dC]) trTimeoutA false [] =
      .error .timeoutError ∧
    check_pdscs_fixed mKeil (fetchOk [dA, dC]) trTimeoutA false [] =
      .ok [⟨dA.get_pdsc_url, -1, .REQUEST_TIMEOUT, none, none⟩] :=
  ⟨rfl, rfl⟩

/-- C3 (code bug): the GET submitted for each descriptor carries no timeout
argument at all (`executor.submit(requests.get, pdsc.get_pdsc_url())`), so it
does not carry the 30-second bound; and when the underlying GET raises
`Timeout`, `check_pdscs` propagates the exception instead of producing a
`REQUEST_TIMEOUT` outcome.  The unused `retrieve_pdsc` method performs
exactly the classification the spec describes. -/
theorem probe_get_has_no_timeout :
    probe_submit_args [dA] = [(dA.get_pdsc_url, none)] ∧
    (none : Option Nat) ≠ some REQUEST_TIMEOUT_SECONDS ∧
    check_pdscs mKeil (fetchOk [dA]) trTimeoutA false [] = .error .timeoutError ∧
    retrieve_pdsc trTimeoutA dA =
      .inr ⟨dA.get_pdsc_url, -1, .REQUEST_TIMEOUT, none, none⟩ :=
  ⟨rfl, by decide, rfl, rfl⟩

/-- C4 counterexample: stdout not a tty, two descriptors both probed with 404,
and a completion order opposite to the submission order.  The claim predicts
the report `[fail404 dB, fail404 dA]` (completion order); the code iterates
`futures_map` itself and produces `[fail404 dA, fail404 dB]` (submission
order), which differs. -/
theorem non_tty_processing_not_completion_order :
    check_pdscs mKeil (fetchOk [dA, dB]) tr404 false [dB, dA] =
      .ok [fail404 dA, fail404 dB] ∧
    [fail404 dA, fail404 dB] ≠ [fail404 dB, fail404 dA] :=
  ⟨rfl, by decide⟩

/-- C4 as amended: when no probe raises, the outcomes are processed in
completion order in interactive (tty) mode, and in submission order — the
filtered descriptor order — in non-interactive mode. -/
theorem processing_order_by_output_mode (m : PackIndexMonitor) (fetch : IndexFetch)
    (tr : Transport) (ts : String) (pdscs : List PdscInfo) (isatty : Bool)
    (completionOrder : List PdscInfo)
    (hidx : retrieve_index fetch = .ok (ts, pdscs))
    (_hperm : completionOrder.Perm (filtered_pdscs m pdscs))
    (hresp : ∀ url, ∃ s, tr url none = .response s) :
    check_pdscs m fetch tr isatty completionOrder =
      .ok ((if isatty then completionOrder else filtered_pdscs m pdscs).filterMap
        (responseFailure tr)) := by
  unfold check_pdscs
  rw [hidx]
  cases isatty <;> simp [processFutures_no_raise tr _ hresp]

/-- Witness for the amended C4 at a concrete input: tty mode with reversed
completion order reports `dB` first. -/
theorem processing_order_by_output_mode_witness :
    check_pdscs mKeil (fetchOk [dA, dB]) tr404 true [dB, dA] =
      .ok ((if true then [dB, dA] else filtered_pdscs mKeil [dA, dB]).filterMap
        (responseFailure tr404)) :=
  processing_order_by_output_mode mKeil (fetchOk [dA, dB]) tr404
    "2021-01-01T12:00:00" [dA, dB] true [dB, dA] rfl (by decide)
    (fun _ => ⟨404, rfl⟩)

/-- C9: the vendor filter is idempotent, for every monitor configuration
(wildcard or not) and every descriptor list. -/
theorem vendor_filter_idempotent (m : PackIndexMonitor) (pdscs : List PdscInfo) :
    filtered_pdscs m (filtered_pdscs m pdscs) = filtered_pdscs m pdscs := by
  unfold filtered_pdscs
  by_cases h : m.all_vendors = true <;> simp [h, List.filter_filter]

/-- C10: a fetched index that parses and carries a valid timestamp but whose
some `<pdsc>` element lacks one of the `url`/`vendor`/`name`/`version`
attributes makes `retrieve_index` raise `KeyError`, which `check_pdscs`
(catching only `RequestError`) lets escape instead of recording an
`INVALID_DATA` synthetic failure. -/
theorem missing_attrib_keyerror_escapes (m : PackIndexMonitor) (tr : Transport)
    (isatty : Bool) (co : List PdscInfo) (ts : String) (elems : List PdscElem)
    (k : String) (hk : firstKeyError elems = some k) :
    retrieve_index (.response 200 (.parsed (.valid ts) elems)) =
      .error (.keyError k) ∧
    check_pdscs m (.response 200 (.parsed (.valid ts) elems)) tr isatty co =
      .error (.keyError k) := by
  have hidx : retrieve_index (.response 200 (.parsed (.valid ts) elems)) =
      .error (.keyError k) := by
    simp [retrieve_index, pdscsOfElems_keyError elems k hk]
  refine ⟨hidx, ?_⟩
  unfold check_pdscs
  rw [hidx]

/-- Witness for C10: an element lacking its `vendor` attribute. -/
theorem missing_attrib_keyerror_escapes_witness :
    retrieve_index (.response 200 (.parsed (.valid "t")
        [⟨some "u", none, some "n", some "v"⟩])) =
      .error (.keyError "vendor") ∧
    check_pdscs mKeil (.response 200 (.parsed (.valid "t")
        [⟨some "u", none, some "n", some "v"⟩])) tr200 false [] =
      .error (.keyError "vendor") :=
  missing_attrib_keyerror_escapes mKeil tr200 false [] "t"
    [⟨some "u", none, some "n", some "v"⟩] "vendor" rfl

/-- C5: the pool scheduler model of `ThreadPoolExecutor(max_workers=32)`
never has more than 32 tasks in flight, for any number of submitted
descriptors (including zero); and a run whose filtered descriptor list is
empty returns an empty failure report. -/
theorem pool_bounded_and_empty_input :
    (∀ (filtered : List PdscInfo) (s : PoolState),
      poolReachable check_pdscs_max_workers (initPool filtered) s →
      s.running.length ≤ check_pdscs_max_workers) ∧
    (∀ (m : PackIndexMonitor) (fetch : IndexFetch) (tr : Transport)
      (isatty : Bool) (co : List PdscInfo) (ts : String) (pdscs : List PdscInfo),
      retrieve_index fetch = .ok (ts, pdscs) →
      co.Perm (filtered_pdscs m pdscs) →
      filtered_pdscs m pdscs = [] →
      check_pdscs m fetch tr isatty co = .ok []) := by
  constructor
  · intro filtered s hreach
    induction hreach with
    | refl => simp [initPool]
    | tail _hsteps hstep ih =>
      cases hstep with
      | start p pending running done hfree => simpa using hfree
      | finish p pending running done hp =>
        calc (running.erase p).length ≤ running.length := List.length_erase_le p running
        _ ≤ check_pdscs_max_workers := ih
  · intro m fetch tr isatty co ts pdscs hidx hperm hempty
    rw [hempty] at hperm
    have hco : co = [] := hperm.eq_nil
    unfold check_pdscs
    rw [hidx]
    cases isatty <;> simp [hempty, hco, processFutures]

/-- Witness for C5: one descriptor submitted, the state after the scheduler
started it (one task in flight) respects the bound, and a cycle whose index
lists no packs returns an empty report. -/
theorem pool_bounded_and_empty_input_witness :
    (PoolState.mk [] [dA] []).running.length ≤ check_pdscs_max_workers ∧
    check_pdscs mKeil (fetchOk []) tr200 false [] = .ok [] :=
  ⟨pool_bounded_and_empty_input.1 [dA] ⟨[], [dA], []⟩
      (Relation.ReflTransGen.single
        (PoolStep.start dA [] [] [] (by simp [check_pdscs_max_workers]))),
   pool_bounded_and_empty_input.2 mKeil (fetchOk []) tr200 false []
      "2021-01-01T12:00:00" [] rfl (by decide) rfl⟩

/-- C8: every failing index fetch — connection error, timeout, non-200
status, unparsable body, missing or unparsable timestamp (the latter three
classified `INVALID_DATA`) — makes `check_pdscs` return a report with exactly
one synthetic failure carrying the expected cause, and the run loop then
sleeps or exits per the configured interval instead of crashing. -/
theorem index_fetch_failure_single_synthetic_failure (m : PackIndexMonitor)
    (fetch : IndexFetch) (tr : Transport) (isatty : Bool) (co : List PdscInfo)
    (interval : Nat) (hfail : indexFetchFails fetch = true) :
    checkOutcomeCount (check_pdscs m fetch tr isatty co) = some 1 ∧
    firstFailureCause (check_pdscs m fetch tr isatty co) =
      some (expectedIndexFailureCause fetch) ∧
    run_loop_next interval (check_pdscs m fetch tr isatty co) =
      (if interval = 0 then .exit else .sleep interval) := by
  have hone : ∃ f : RequestFailureInfo,
      check_pdscs m fetch tr isatty co = .ok [f] ∧
      f.cause = expectedIndexFailureCause fetch := by
    cases fetch with
    | connectionError => exact ⟨_, rfl, rfl⟩
    | timeoutError => exact ⟨_, rfl, rfl⟩
    | response status body =>
      by_cases h200 : status = 200
      · subst h200
        cases body with
        | parseError => exact ⟨_, rfl, rfl⟩
        | parsed tsp elems =>
          cases tsp with
          | missing => exact ⟨_, rfl, rfl⟩
          | invalid => exact ⟨_, rfl, rfl⟩
          | valid t => simp [indexFetchFails] at hfail
      · refine ⟨⟨PIDX, status, .REQUEST_FAILED, some ⟨status⟩, none⟩, ?_, ?_⟩
        · unfold check_pdscs retrieve_index
          simp [h200]
        · simp [expectedIndexFailureCause, h200]
  obtain ⟨f, hf, hcause⟩ := hone
  rw [hf]
  refine ⟨rfl, ?_, ?_⟩
  · simp [firstFailureCause, hcause]
  · simp [run_loop_next]

/-- Witness for C8: an index body whose `<timestamp>` element is missing,
with interval 5 — one `INVALID_DATA` synthetic failure and a sleep. -/
theorem index_fetch_failure_single_synthetic_failure_witness :
    checkOutcomeCount (check_pdscs mKeil (.response 200 (.parsed .missing []))
        tr200 false []) = some 1 ∧
    firstFailureCause (check_pdscs mKeil (.response 200 (.parsed .missing []))
        tr200 false []) =
      some (expectedIndexFailureCause (.response 200 (.parsed .missing []))) ∧
    run_loop_next 5 (check_pdscs mKeil (.response 200 (.parsed .missing []))
        tr200 false []) = (if 5 = 0 then .exit else .sleep 5) :=
  index_fetch_failure_single_synthetic_failure mKeil
    (.response 200 (.parsed .missing [])) tr200 false [] 5 rfl

/-- C6: with the vendors prepared by `PackIndexMonitorTool.run`
(stripped and casefolded; assumed free of surrounding whitespace and not
containing the wildcard), a descriptor passes the filter exactly when its
vendor equals some configured vendor up to case (casefold equality), and the
filtered list is a sublist of the input, hence preserves its order. -/
theorem vendor_filter_case_insensitive_order_preserving
    (configured : List String) (q : Bool) (pdscs : List PdscInfo)
    (hns : ∀ v ∈ configured, pyStrip v = v)
    (hnw : "*" ∉ prepare_vendors configured) :
    (∀ p : PdscInfo,
      p ∈ filtered_pdscs ⟨prepare_vendors configured, q⟩ pdscs ↔
        p ∈ pdscs ∧ ∃ v ∈ configured, casefold p.vendor = casefold v) ∧
    (filtered_pdscs ⟨prepare_vendors configured, q⟩ pdscs).Sublist pdscs := by
  have hall : (PackIndexMonitor.mk (prepare_vendors configured) q).all_vendors = false := by
    simp only [PackIndexMonitor.all_vendors, decide_eq_false_iff_not]
    exact hnw
  have hfil : filtered_pdscs ⟨prepare_vendors configured, q⟩ pdscs =
      pdscs.filter (fun p => decide (casefold p.vendor ∈ prepare_vendors configured)) := by
    unfold filtered_pdscs
    rw [hall]
    simp
  constructor
  · intro p
    rw [hfil, List.mem_filter]
    constructor
    · rintro ⟨hp, hmem⟩
      rw [decide_eq_true_eq, prepare_vendors] at hmem
      obtain ⟨v, hv, heq⟩ := List.mem_map.mp hmem
      rw [hns v hv] at heq
      exact ⟨hp, v, hv, heq.symm⟩
    · rintro ⟨hp, v, hv, heq⟩
      refine ⟨hp, ?_⟩
      rw [decide_eq_true_eq, prepare_vendors]
      refine List.mem_map.mpr ⟨v, hv, ?_⟩
      rw [hns v hv]
      exact heq.symm
  · rw [hfil]
    exact List.filter_sublist pdscs

/-- Witness for C6: configured vendor "Keil" keeps the upper-case "KEIL"
descriptor `dA` would be — here the fixture `dA` has vendor "Keil", and
`dArm` with vendor "ARM" is dropped while order is preserved. -/
theorem vendor_filter_case_insensitive_order_preserving_witness :
    dA ∈ filtered_pdscs ⟨prepare_vendors ["Keil"], false⟩ [dA, dArm] :=
  ((vendor_filter_case_insensitive_order_preserving ["Keil"] false [dA, dArm]
      (by decide) (by decide)).1 dA).mpr
    ⟨by decide, "Keil", by decide, by decide⟩

/-! ## List lemmas for the resolved-URL property -/

theorem hostChar_spec (c : Char) (h : hostChar c = true) :
    33 ≤ c.toNat ∧ c.toNat ≤ 126 ∧ c ≠ '/' ∧ c ≠ '?' ∧ c ≠ '#' ∧
      c ≠ '[' ∧ c ≠ ']' := by
  simp only [hostChar, Bool.and_eq_true, bne_iff_ne, decide_eq_true_eq] at h
  tauto

theorem pathChar_spec (c : Char) (h : pathChar c = true) :
    33 ≤ c.toNat ∧ c ≠ '/' ∧ c ≠ '?' ∧ c ≠ '#' ∧ c ≠ ';' := by
  simp only [pathChar, Bool.and_eq_true, bne_iff_ne, decide_eq_true_eq] at h
  tauto

theorem relChar_spec (c : Char) (h : relChar c = true) :
    33 ≤ c.toNat ∧ c ≠ ':' ∧ c ≠ '/' ∧ c ≠ '?' ∧ c ≠ '#' ∧ c ≠ ';' := by
  simp only [relChar, Bool.and_eq_true, bne_iff_ne, decide_eq_true_eq] at h
  tauto

theorem cleanUrl_eq_self (l : List Char) (h : ∀ c ∈ l, 33 ≤ c.toNat) :
    cleanUrl l = l := by
  unfold cleanUrl
  have hdrop : l.dropWhile c0ControlOrSpace = l := by
    cases l with
    | nil => rfl
    | cons a t =>
      rw [List.dropWhile_cons]
      have ha := h a (by simp)
      have hfa : c0ControlOrSpace a = false := by
        simp only [c0ControlOrSpace, decide_eq_false_iff_not]
        omega
      simp [hfa]
  rw [hdrop]
  refine List.filter_eq_self.mpr ?_
  intro c hc
  have h33 := h c hc
  have hub : unsafeUrlByte c = false := by
    simp only [unsafeUrlByte, Bool.or_eq_false_iff, beq_eq_false_iff_ne, ne_eq]
    refine ⟨⟨?_, ?_⟩, ?_⟩ <;> (intro he; subst he; exact absurd h33 (by decide))
  simp [hub]

theorem splitFirst_eq_none (sep : Char) (l : List Char) (h : sep ∉ l) :
    splitFirst sep l = none := by
  induction l with
  | nil => rfl
  | cons c rest ih =>
    have h1 : ¬c = sep := fun he => h (by simp [he])
    have h2 : sep ∉ rest := fun hm => h (List.mem_cons_of_mem _ hm)
    simp [splitFirst, h1, ih h2]

theorem schemeSplit_eq_none (l : List Char) (h : ':' ∉ l) :
    schemeSplit l = none := by
  induction l with
  | nil => rfl
  | cons c rest ih =>
    have h1 : ¬c = ':' := fun he => h (by simp [he])
    have h2 : ':' ∉ rest := fun hm => h (List.mem_cons_of_mem _ hm)
    by_cases hsc : schemeChar c = true
    · simp [schemeSplit, h1, hsc, ih h2]
    · simp [schemeSplit, h1, hsc]

theorem splitNetloc_append (h : List Char) (t : List Char)
    (hh : ∀ c ∈ h, hostChar c = true) :
    splitNetloc (h ++ '/' :: t) = (h, '/' :: t) := by
  induction h with
  | nil => simp [splitNetloc]
  | cons c rest ih =>
    obtain ⟨-, -, hslash, hq, hhash, -, -⟩ := hostChar_spec c (hh c (by simp))
    have hcond : (c = '/' || c = '?' || c = '#') = false := by
      simp [hslash, hq, hhash]
    have htail := ih (fun x hx => hh x (List.mem_cons_of_mem _ hx))
    simp only [List.cons_append, splitNetloc, hcond, Bool.false_eq_true, if_false,
      List.append_eq]
    rw [htail]

theorem splitSlash_sepFree (s : List Char) (h : '/' ∉ s) :
    splitSlash s = [s] := by
  induction s with
  | nil => rfl
  | cons c rest ih =>
    have h1 : ¬c = '/' := fun he => h (by simp [he])
    have h2 : '/' ∉ rest := fun hm => h (List.mem_cons_of_mem _ hm)
    simp [splitSlash, h1, ih h2]

theorem splitSlash_append_cons (s t : List Char) (h : '/' ∉ s) :
    splitSlash (s ++ '/' :: t) = s :: splitSlash t := by
  induction s with
  | nil => simp [splitSlash]
  | cons c rest ih =>
    have h1 : ¬c = '/' := fun he => h (by simp [he])
    have h2 : '/' ∉ rest := fun hm => h (List.mem_cons_of_mem _ hm)
    simp [splitSlash, h1, ih h2]

theorem joinSlash_cons (s : List Char) (rest : List (List Char)) (h : rest ≠ []) :
    joinSlash (s :: rest) = s ++ '/' :: joinSlash rest := by
  cases rest with
  | nil => exact absurd rfl h
  | cons a t => rfl

theorem splitSlash_joinSlash (ss : List (List Char)) (hne : ss ≠ [])
    (h : ∀ s ∈ ss, '/' ∉ s) :
    splitSlash (joinSlash ss) = ss := by
  induction ss with
  | nil => exact absurd rfl hne
  | cons s rest ih =>
    cases rest with
    | nil => exact splitSlash_sepFree s (h s (by simp))
    | cons s2 r2 =>
      rw [joinSlash_cons s (s2 :: r2) (by simp)]
      rw [splitSlash_append_cons s (joinSlash (s2 :: r2)) (h s (by simp))]
      rw [ih (by simp) (fun x hx => h x (List.mem_cons_of_mem _ hx))]

theorem joinSlash_append_empty (xs : List (List Char)) (z : List Char) :
    joinSlash (xs ++ [[]]) ++ z = joinSlash (xs ++ [z]) := by
  induction xs with
  | nil => simp [joinSlash]
  | cons x xt ih =>
    rw [List.cons_append, joinSlash_cons x (xt ++ [[]]) (by simp),
      List.cons_append, joinSlash_cons x (xt ++ [z]) (by simp)]
    simp only [List.append_assoc, List.cons_append, ih]

theorem dropEmptyButLast_append (core : List (List Char)) (t : List (List Char))
    (ht : t ≠ []) (hc : ∀ s ∈ core, s ≠ []) :
    dropEmptyButLast (core ++ t) = core ++ dropEmptyButLast t := by
  induction core with
  | nil => rfl
  | cons a rest ih =>
    obtain ⟨b, u, hbu⟩ := List.exists_cons_of_ne_nil
      (show rest ++ t ≠ [] by simp [ht])
    have ha : a ≠ [] := hc a (by simp)
    rw [List.cons_append, hbu]
    simp only [dropEmptyButLast, ha, if_false]
    rw [← hbu, ih (fun x hx => hc x (List.mem_cons_of_mem _ hx))]
    simp [ha]

theorem resolveDots_go (l : List (List Char)) (acc : List (List Char))
    (h : ∀ s ∈ l, s ≠ ['.'] ∧ s ≠ ['.', '.']) :
    l.foldl (fun acc seg => if seg = ['.', '.'] then acc.dropLast
      else if seg = ['.'] then acc else acc ++ [seg]) acc = acc ++ l := by
  induction l generalizing acc with
  | nil => simp
  | cons s rest ih =>
    obtain ⟨h1, h2⟩ := h s (by simp)
    rw [List.foldl_cons, if_neg h2, if_neg h1,
      ih (acc ++ [s]) (fun x hx => h x (List.mem_cons_of_mem _ hx))]
    simp

theorem resolveDots_id (l : List (List Char))
    (h : ∀ s ∈ l, s ≠ ['.'] ∧ s ≠ ['.', '.']) :
    resolveDots l = l := by
  unfold resolveDots
  rw [resolveDots_go l [] h]
  simp

theorem mem_joinSlash (c : Char) (ss : List (List Char)) (h : c ∈ joinSlash ss) :
    c = '/' ∨ ∃ s ∈ ss, c ∈ s := by
  induction ss with
  | nil => simp [joinSlash] at h
  | cons s rest ih =>
    cases rest with
    | nil =>
      simp only [joinSlash] at h
      exact Or.inr ⟨s, by simp, h⟩
    | cons s2 r2 =>
      rw [joinSlash_cons s (s2 :: r2) (by simp)] at h
      rcases List.mem_append.mp h with h1 | h2
      · exact Or.inr ⟨s, by simp, h1⟩
      · rcases List.mem_cons.mp h2 with h3 | h4
        · exact Or.inl h3
        · rcases ih h4 with h5 | ⟨u, hu, hcu⟩
          · exact Or.inl h5
          · exact Or.inr ⟨u, by simp [hu], hcu⟩

theorem mem_absPath (c : Char) (ss : List (List Char)) (h : c ∈ absPath ss) :
    c = '/' ∨ ∃ s ∈ ss, c ∈ s := by
  unfold absPath at h
  rcases List.mem_cons.mp h with h1 | h2
  · exact Or.inl h1
  · exact mem_joinSlash c ss h2

/-! ## Parsing plain URLs -/

theorem urlparse_rel (defSch : List Char) (rel : List Char) (hne : rel ≠ [])
    (h : ∀ c ∈ rel, relChar c = true) :
    urlparseChars defSch rel = ⟨defSch, [], rel, [], [], []⟩ := by
  have h33 : ∀ c ∈ rel, 33 ≤ c.toNat := fun c hc => (relChar_spec c (h c hc)).1
  have hcolon : ':' ∉ rel := fun hm => (relChar_spec _ (h _ hm)).2.1 rfl
  have hslash : '/' ∉ rel := fun hm => (relChar_spec _ (h _ hm)).2.2.1 rfl
  have hq : '?' ∉ rel := fun hm => (relChar_spec _ (h _ hm)).2.2.2.1 rfl
  have hhash : '#' ∉ rel := fun hm => (relChar_spec _ (h _ hm)).2.2.2.2.1 rfl
  have hsemi : ';' ∉ rel := fun hm => (relChar_spec _ (h _ hm)).2.2.2.2.2 rfl
  have htake : ¬(rel.take 2 = ['/', '/']) := by
    cases rel with
    | nil => simp
    | cons c rest =>
      intro hcon
      rw [List.take_succ_cons] at hcon
      have hc : c = '/' := (List.cons.injEq _ _ _ _).mp hcon |>.1
      exact hslash (hc ▸ List.mem_cons_self c rest)
  have hsplit : urlsplitChars defSch rel = ⟨defSch, [], rel, [], [], []⟩ := by
    unfold urlsplitChars
    simp only [cleanUrl_eq_self rel h33, schemeSplit_eq_none rel hcolon,
      splitFirst_eq_none '#' rel hhash, splitFirst_eq_none '?' rel hq, htake,
      if_false]
  unfold urlparseChars
  rw [hsplit]
  rw [if_neg (fun hcon => hsemi hcon.2)]

theorem urlparse_base (host : List Char) (ss : List (List Char))
    (hh : ∀ c ∈ host, hostChar c = true)
    (hs : ∀ s ∈ ss, ∀ c ∈ s, pathChar c = true) :
    urlparseChars [] ("http://".data ++ host ++ absPath ss) =
      ⟨"http".data, host, absPath ss, [], [], []⟩ := by
  have hpath33 : ∀ c ∈ absPath ss, 33 ≤ c.toNat := by
    intro c hc
    rcases mem_absPath c ss hc with h1 | ⟨s, hsm, hcs⟩
    · subst h1; decide
    · exact (pathChar_spec c (hs s hsm c hcs)).1
  have hpathq : '?' ∉ absPath ss := by
    intro hm
    rcases mem_absPath _ ss hm with h1 | ⟨s, hsm, hcs⟩
    · exact absurd h1 (by decide)
    · exact (pathChar_spec _ (hs s hsm _ hcs)).2.2.1 rfl
  have hpathhash : '#' ∉ absPath ss := by
    intro hm
    rcases mem_absPath _ ss hm with h1 | ⟨s, hsm, hcs⟩
    · exact absurd h1 (by decide)
    · exact (pathChar_spec _ (hs s hsm _ hcs)).2.2.2.1 rfl
  have hpathsemi : ';' ∉ absPath ss := by
    intro hm
    rcases mem_absPath _ ss hm with h1 | ⟨s, hsm, hcs⟩
    · exact absurd h1 (by decide)
    · exact (pathChar_spec _ (hs s hsm _ hcs)).2.2.2.2 rfl
  have hlit : ∀ c ∈ "http://".data, 33 ≤ c.toNat := by decide
  have h33 : ∀ c ∈ "http://".data ++ host ++ absPath ss, 33 ≤ c.toNat := by
    intro c hc
    rcases List.mem_append.mp hc with hc1 | hc2
    · rcases List.mem_append.mp hc1 with hc3 | hc4
      · exact hlit c hc3
      · exact (hostChar_spec c (hh c hc4)).1
    · exact hpath33 c hc2
  have hsch : schemeSplit ("http://".data ++ host ++ absPath ss) =
      some ("http".data, '/' :: '/' :: (host ++ absPath ss)) := rfl
  have hnet : splitNetloc (host ++ absPath ss) = (host, absPath ss) :=
    splitNetloc_append host (joinSlash ss) hh
  have hlow : List.map Char.toLower "http".data = "http".data := by decide
  have hal : Char.isAlpha 'h' = true := by decide
  have hsplit : urlsplitChars [] ("http://".data ++ host ++ absPath ss) =
      ⟨"http".data, host, absPath ss, [], [], []⟩ := by
    unfold urlsplitChars
    simp only [cleanUrl_eq_self _ h33, hsch, hal, if_true, hlow,
      List.take_succ_cons, List.take_zero, List.drop_succ_cons, List.drop_zero,
      hnet, splitFirst_eq_none '#' (absPath ss) hpathhash,
      splitFirst_eq_none '?' (absPath ss) hpathq]
  unfold urlparseChars
  rw [hsplit]
  rw [if_neg (fun hcon => hpathsemi hcon.2)]

theorem urljoin_plain (host : List Char) (core : List (List Char)) (rel : List Char)
    (hh1 : host ≠ []) (hh : ∀ c ∈ host, hostChar c = true)
    (hcore_ne : ∀ s ∈ core, s ≠ [])
    (hcore_ch : ∀ s ∈ core, ∀ c ∈ s, pathChar c = true)
    (hcore_dot : ∀ s ∈ core, s ≠ ['.'] ∧ s ≠ ['.', '.'])
    (hr_ne : rel ≠ []) (hr : ∀ c ∈ rel, relChar c = true)
    (hr_dot1 : rel ≠ ['.']) (hr_dot2 : rel ≠ ['.', '.']) :
    urljoinChars ("http://".data ++ host ++ absPath (core ++ [[]])) rel =
      ("http://".data ++ host ++ absPath (core ++ [[]])) ++ rel := by
  have hbase_ne : "http://".data ++ host ++ absPath (core ++ [[]]) ≠ [] := by
    simp [absPath]
  have hsegs : ∀ s ∈ core ++ [[]], ∀ c ∈ s, pathChar c = true := by
    intro s hs c hc
    rcases List.mem_append.mp hs with h1 | h2
    · exact hcore_ch s h1 c hc
    · simp only [List.mem_singleton] at h2
      subst h2
      simp at hc
  have hb := urlparse_base host (core ++ [[]]) hh hsegs
  have hrp := urlparse_rel "http".data rel hr_ne hr
  have hslash : '/' ∉ rel := fun hm => (relChar_spec _ (hr _ hm)).2.2.1 rfl
  have hmrel : "http".data ∈ usesRelative := by decide
  have hmnet : "http".data ∈ usesNetloc := by decide
  -- base path split
  have hsl : ∀ s ∈ core ++ [[]], '/' ∉ s := by
    intro s hs hm
    rcases List.mem_append.mp hs with h1 | h2
    · exact (pathChar_spec _ (hcore_ch s h1 _ hm)).2.1 rfl
    · simp only [List.mem_singleton] at h2
      subst h2
      simp at hm
  have hbp : splitSlash (absPath (core ++ [[]])) = [] :: (core ++ [[]]) := by
    show splitSlash ('/' :: joinSlash (core ++ [[]])) = _
    have h1 : splitSlash ('/' :: joinSlash (core ++ [[]])) =
        [] :: splitSlash (joinSlash (core ++ [[]])) := by
      simp [splitSlash]
    rw [h1, splitSlash_joinSlash (core ++ [[]]) (by simp) hsl]
  have hlastD : ([] :: (core ++ [[]])).getLastD [] = ([] : List Char) := by
    have h2 : ([] : List Char) :: (core ++ [[]]) = (([] : List Char) :: core) ++ [[]] := by
      simp
    rw [h2, List.getLastD_concat]
  -- relative path split
  have hsrel : splitSlash rel = [rel] := splitSlash_sepFree rel hslash
  obtain ⟨c0, rtl, hc0⟩ := List.exists_cons_of_ne_nil hr_ne
  have hc0slash : c0 ≠ '/' := by
    intro he
    exact hslash (by rw [hc0, he]; exact List.mem_cons_self _ _)
  have hhead : ¬(rel.head? = some '/') := by
    rw [hc0]
    simp [hc0slash]
  -- filterInterior computation
  have hfi : filterInterior (([] :: (core ++ [[]])) ++ [rel]) =
      [] :: (core ++ [rel]) := by
    have h3 : (([] : List Char) :: (core ++ [[]])) ++ [rel] =
        [] :: (core ++ ([[], rel] : List (List Char))) := by
      simp
    rw [h3]
    obtain ⟨b0, u0, hbu⟩ := List.exists_cons_of_ne_nil
      (show core ++ ([[], rel] : List (List Char)) ≠ [] by simp)
    rw [hbu]
    show ([] : List Char) :: dropEmptyButLast (b0 :: u0) = _
    rw [← hbu, dropEmptyButLast_append core [[], rel] (by simp) hcore_ne]
    rfl
  -- dot resolution
  have hdots : ∀ s ∈ ([] : List Char) :: (core ++ [rel]),
      s ≠ ['.'] ∧ s ≠ ['.', '.'] := by
    intro s hs
    rcases List.mem_cons.mp hs with h1 | h2
    · subst h1
      refine ⟨by simp, by simp⟩
    · rcases List.mem_append.mp h2 with h3 | h4
      · exact hcore_dot s h3
      · simp only [List.mem_singleton] at h4
        subst h4
        exact ⟨hr_dot1, hr_dot2⟩
  have hrd : resolveDots ([] :: (core ++ [rel])) = [] :: (core ++ [rel]) :=
    resolveDots_id _ hdots
  have hlast2 : (([] : List Char) :: (core ++ [rel])).getLastD [] = rel := by
    have h4 : ([] : List Char) :: (core ++ [rel]) = (([] : List Char) :: core) ++ [rel] := by
      simp
    rw [h4, List.getLastD_concat]
  have hjoin : joinSlash ([] :: (core ++ [rel])) = '/' :: joinSlash (core ++ [rel]) := by
    rw [joinSlash_cons [] (core ++ [rel]) (by simp)]
    rfl
  have hlit2 : ∀ X : List Char, "http".data ++ ':' :: '/' :: '/' :: X = "http://".data ++ X :=
    fun X => rfl
  -- condition facts, as rewrites to True / False
  have hmrelT : ((['h', 't', 't', 'p'] : List Char) ∈ usesRelative) = True :=
    eq_true (by decide)
  have hmnetT : ((['h', 't', 't', 'p'] : List Char) ∈ usesNetloc) = True :=
    eq_true (by decide)
  have hrelF : (rel = []) = False := eq_false hr_ne
  have hh1T : (host ≠ []) = True := eq_true hh1
  have c4 : (rel.head? = some '/') = False := eq_false hhead
  have c5 : (rel = ['.'] ∨ rel = ['.', '.']) = False := by
    simp [hr_dot1, hr_dot2]
  have hjoin_ne : (('/' :: joinSlash (core ++ [rel]) : List Char) = []) = False := by
    simp
  -- walk through urljoinChars and the final unparse
  unfold urljoinChars
  rw [if_neg hbase_ne, if_neg hr_ne]
  simp only [hb, hrp, hbp, hlastD, hsrel, hfi, hrd, hlast2, hjoin,
    hmrelT, hmnetT, hrelF, c4, c5, hh1T, hjoin_ne,
    urlunparseChars, urlunsplitChars,
    ne_eq, not_true_eq_false, not_false_eq_true, eq_self_iff_true,
    true_and, and_true, false_and, and_false, true_or, or_true, false_or,
    or_false, if_true, if_false, ite_true, ite_false, not_true, not_false_iff,
    List.head?_cons, Option.some.injEq]
  -- final list algebra
  simp [absPath, List.append_assoc, joinSlash_append_empty]

theorem joinSlash_append_single (xs : List (List Char)) (y : List Char) (h : xs ≠ []) :
    joinSlash (xs ++ [y]) = joinSlash xs ++ '/' :: y := by
  induction xs with
  | nil => exact absurd rfl h
  | cons x xt ih =>
    cases xt with
    | nil => rfl
    | cons x2 xt2 =>
      rw [List.cons_append, joinSlash_cons x (x2 :: xt2 ++ [y]) (by simp),
        joinSlash_cons x (x2 :: xt2) (by simp), ih (by simp)]
      simp

theorem absPath_concat_slash (segs : List (List Char)) :
    (if segs = [] then [] else absPath segs) ++ ['/'] = absPath (segs ++ [[]]) := by
  by_cases h : segs = []
  · subst h
    rfl
  · rw [if_neg h]
    unfold absPath
    rw [joinSlash_append_single segs [] h]
    simp

theorem endswithSlash_mkUrlStr (host : List Char) (segs : List (List Char))
    (endSlash : Bool)
    (hh1 : host ≠ []) (hh : ∀ c ∈ host, hostChar c = true)
    (hsegs_ne : ∀ s ∈ segs, s ≠ [])
    (hsegs_ch : ∀ s ∈ segs, ∀ c ∈ s, pathChar c = true) :
    endswithSlash (mkUrlStr host segs endSlash) = endSlash := by
  show ((("http://".data ++ host ++ (if segs = [] then [] else absPath segs) ++
      (if endSlash then ['/'] else [])).getLast?) == some '/') = endSlash
  cases endSlash with
  | true =>
    have hsh : "http://".data ++ host ++ (if segs = [] then [] else absPath segs) ++
        ['/'] = ("http://".data ++ host ++ (if segs = [] then [] else absPath segs))
          ++ ['/'] := rfl
    rw [if_pos rfl, hsh, List.getLast?_concat]
    decide
  | false =>
    rw [if_neg (show ¬((false : Bool) = true) by decide), List.append_nil]
    by_cases hsegs : segs = []
    · subst hsegs
      rw [if_pos rfl, List.append_nil]
      have hsh : "http://".data ++ host =
          ("http://".data ++ host.dropLast) ++ [host.getLast hh1] := by
        rw [List.append_assoc, List.dropLast_append_getLast hh1]
      rw [hsh, List.getLast?_concat]
      have hchar := hostChar_spec (host.getLast hh1) (hh _ (List.getLast_mem hh1))
      have hne : host.getLast hh1 ≠ '/' := hchar.2.2.1
      simp [hne]
    · have hlastseg_mem : segs.getLast hsegs ∈ segs := List.getLast_mem hsegs
      have hslast_ne : segs.getLast hsegs ≠ [] := hsegs_ne _ hlastseg_mem
      have hjoin_shape : ∃ pre : List Char,
          joinSlash segs = pre ++ segs.getLast hsegs := by
        by_cases hdl : segs.dropLast = []
        · refine ⟨[], ?_⟩
          have hsegs_eq : segs = [segs.getLast hsegs] := by
            conv_lhs => rw [← List.dropLast_append_getLast hsegs]
            rw [hdl]
            simp
          have h5 := congrArg joinSlash hsegs_eq
          rw [h5]
          simp [joinSlash]
        · refine ⟨joinSlash segs.dropLast ++ ['/'], ?_⟩
          conv_lhs => rw [← List.dropLast_append_getLast hsegs]
          rw [joinSlash_append_single segs.dropLast (segs.getLast hsegs) hdl]
          simp
      obtain ⟨pre, hpre⟩ := hjoin_shape
      have hs_shape : segs.getLast hsegs =
          (segs.getLast hsegs).dropLast ++ [(segs.getLast hsegs).getLast hslast_ne] :=
        (List.dropLast_append_getLast hslast_ne).symm
      have hfull : "http://".data ++ host ++ (if segs = [] then [] else absPath segs) =
          ("http://".data ++ host ++ ('/' :: (pre ++ (segs.getLast hsegs).dropLast)))
            ++ [(segs.getLast hsegs).getLast hslast_ne] := by
        rw [if_neg hsegs]
        unfold absPath
        rw [hpre]
        conv_lhs => rw [hs_shape]
        simp [List.append_assoc]
      rw [hfull, List.getLast?_concat]
      have hcmem : (segs.getLast hsegs).getLast hslast_ne ∈ segs.getLast hsegs :=
        List.getLast_mem hslast_ne
      have hchar := pathChar_spec _ (hsegs_ch _ hlastseg_mem _ hcmem)
      have hne : (segs.getLast hsegs).getLast hslast_ne ≠ '/' := hchar.2.1
      simp [hne]

theorem urljoin_plain_str (host : List Char) (core : List (List Char))
    (p rel : String)
    (hp : p.data = "http://".data ++ host ++ absPath (core ++ [[]]))
    (hh1 : host ≠ []) (hh : ∀ c ∈ host, hostChar c = true)
    (hcore_ne : ∀ s ∈ core, s ≠ [])
    (hcore_ch : ∀ s ∈ core, ∀ c ∈ s, pathChar c = true)
    (hcore_dot : ∀ s ∈ core, s ≠ ['.'] ∧ s ≠ ['.', '.'])
    (hr_ne : rel.data ≠ []) (hr : ∀ c ∈ rel.data, relChar c = true)
    (hr_dot1 : rel.data ≠ ['.']) (hr_dot2 : rel.data ≠ ['.', '.']) :
    urljoin p rel = p ++ rel := by
  cases p with
  | mk pd =>
    cases rel with
    | mk rd =>
      show String.mk (urljoinChars pd rd) = String.mk (pd ++ rd)
      apply congrArg String.mk
      simp only [String.data] at hp hr_ne hr hr_dot1 hr_dot2
      rw [hp]
      exact urljoin_plain host core rd hh1 hh hcore_ne hcore_ch hcore_dot
        hr_ne hr hr_dot1 hr_dot2

/-- C7 as amended: for descriptors whose url is a plain lower-case
`http://host/seg1/.../segn` URL (nonempty host without `/?#[]` or control
characters; nonempty non-dot segments without `/?#;` or control characters;
optionally a trailing slash) and whose vendor and name contain none of
`:/?#;` nor control characters, the resolved pdsc URL is
`url + "/" + vendor + "." + name + ".pdsc"` when the url does not end in
`/`, and the same concatenation without a doubled separator when it does.
For other descriptors `urljoin` resolution applies (see the counterexample). -/
theorem get_pdsc_url_concat_for_plain_urls
    (host : List Char) (segs : List (List Char)) (endSlash : Bool)
    (vendor pname version : String)
    (hh1 : host ≠ []) (hh : ∀ c ∈ host, hostChar c = true)
    (hsegs_ne : ∀ s ∈ segs, s ≠ [])
    (hsegs_ch : ∀ s ∈ segs, ∀ c ∈ s, pathChar c = true)
    (hsegs_dot : ∀ s ∈ segs, s ≠ ['.'] ∧ s ≠ ['.', '.'])
    (hv : ∀ c ∈ vendor.data, relChar c = true)
    (hn : ∀ c ∈ pname.data, relChar c = true) :
    endswithSlash (mkUrlStr host segs endSlash) = endSlash ∧
    (PdscInfo.mk (mkUrlStr host segs endSlash) vendor pname version).get_pdsc_url =
      (if endSlash then
        mkUrlStr host segs endSlash ++ (vendor ++ "." ++ pname ++ ".pdsc")
       else
        mkUrlStr host segs endSlash ++ "/" ++ (vendor ++ "." ++ pname ++ ".pdsc")) := by
  have hE := endswithSlash_mkUrlStr host segs endSlash hh1 hh hsegs_ne hsegs_ch
  refine ⟨hE, ?_⟩
  have hrd : (vendor ++ "." ++ pname ++ ".pdsc").data =
      vendor.data ++ ['.'] ++ pname.data ++ ['.', 'p', 'd', 's', 'c'] := rfl
  have hrall : ∀ c ∈ (vendor ++ "." ++ pname ++ ".pdsc").data, relChar c = true := by
    rw [hrd]
    intro c hc
    rcases List.mem_append.mp hc with h1 | h2
    · rcases List.mem_append.mp h1 with h3 | h4
      · rcases List.mem_append.mp h3 with h5 | h6
        · exact hv c h5
        · simp only [List.mem_singleton] at h6
          subst h6
          decide
      · exact hn c h4
    · fin_cases h2 <;> decide
  have hrlen : 5 ≤ (vendor ++ "." ++ pname ++ ".pdsc").data.length := by
    rw [hrd]
    simp [List.length_append]
    omega
  have hrne : (vendor ++ "." ++ pname ++ ".pdsc").data ≠ [] := by
    intro he
    rw [he] at hrlen
    simp at hrlen
  have hrdot1 : (vendor ++ "." ++ pname ++ ".pdsc").data ≠ ['.'] := by
    intro he
    rw [he] at hrlen
    simp at hrlen
  have hrdot2 : (vendor ++ "." ++ pname ++ ".pdsc").data ≠ ['.', '.'] := by
    intro he
    rw [he] at hrlen
    simp at hrlen
  cases endSlash with
  | true =>
    rw [if_pos rfl]
    show urljoin (if endswithSlash (mkUrlStr host segs true) then mkUrlStr host segs true
        else mkUrlStr host segs true ++ "/") (vendor ++ "." ++ pname ++ ".pdsc") = _
    rw [hE, if_pos rfl]
    have hp : (mkUrlStr host segs true).data =
        "http://".data ++ host ++ absPath (segs ++ [[]]) := by
      show "http://".data ++ host ++ (if segs = [] then [] else absPath segs) ++ ['/'] = _
      rw [List.append_assoc ("http://".data ++ host), absPath_concat_slash]
    exact urljoin_plain_str host segs (mkUrlStr host segs true)
      (vendor ++ "." ++ pname ++ ".pdsc") hp hh1 hh hsegs_ne hsegs_ch hsegs_dot
      hrne hrall hrdot1 hrdot2
  | false =>
    rw [if_neg (show ¬((false : Bool) = true) by decide)]
    show urljoin (if endswithSlash (mkUrlStr host segs false) then mkUrlStr host segs false
        else mkUrlStr host segs false ++ "/") (vendor ++ "." ++ pname ++ ".pdsc") = _
    rw [hE, if_neg (show ¬((false : Bool) = true) by decide)]
    have hp : (mkUrlStr host segs false ++ "/").data =
        "http://".data ++ host ++ absPath (segs ++ [[]]) := by
      show "http://".data ++ host ++ (if segs = [] then [] else absPath segs) ++ [] ++ ['/'] = _
      rw [List.append_nil, List.append_assoc ("http://".data ++ host), absPath_concat_slash]
    exact urljoin_plain_str host segs (mkUrlStr host segs false ++ "/")
      (vendor ++ "." ++ pname ++ ".pdsc") hp hh1 hh hsegs_ne hsegs_ch hsegs_dot
      hrne hrall hrdot1 hrdot2

/-- C7 counterexample: for the descriptor with url `http://h/p`, vendor `/V`
and name `N`, the code resolves with `urljoin`, which treats `/V.N.pdsc` as an
absolute path and discards the base path: the result is `http://h/V.N.pdsc`,
not the concatenation `http://h/p//V.N.pdsc` the claim predicts. -/
theorem get_pdsc_url_not_plain_concat :
    (PdscInfo.mk "http://h/p" "/V" "N" "1.0").get_pdsc_url ≠
      "http://h/p" ++ "/" ++ "/V" ++ "." ++ "N" ++ ".pdsc" ∧
    (PdscInfo.mk "http://h/p" "/V" "N" "1.0").get_pdsc_url = "http://h/V.N.pdsc" :=
  ⟨by decide, rfl⟩

/-- Witness for the amended C7 at a concrete plain descriptor. -/
theorem get_pdsc_url_concat_for_plain_urls_witness :
    endswithSlash (mkUrlStr "x.test".data ["pack".data] false) = false ∧
    (PdscInfo.mk (mkUrlStr "x.test".data ["pack".data] false) "Keil" "CMSIS"
        "5.8.0").get_pdsc_url =
      (if false then
        mkUrlStr "x.test".data ["pack".data] false ++ ("Keil" ++ "." ++ "CMSIS" ++ ".pdsc")
       else
        mkUrlStr "x.test".data ["pack".data] false ++ "/" ++
          ("Keil" ++ "." ++ "CMSIS" ++ ".pdsc")) :=
  get_pdsc_url_concat_for_plain_urls "x.test".data ["pack".data] false
    "Keil" "CMSIS" "5.8.0" (by decide) (by decide) (by decide) (by decide)
    (by decide) (by decide) (by decide)
